import Mathlib

/-!
# simpleShell: a shallow embedding of `src/main.c`

The shell process is modelled by explicit state passing.  The globals
`jobs` and `num_jobs` and the two output streams are fields of `Shell`;
`main`'s local array `args` is threaded separately.  Answers of the
operating system that the code branches on (`chdir`, `fork`, `kill`, ...)
are supplied per prompt cycle by an `OS` record.  Accesses that are
undefined behaviour in C (a NULL pointer handed to `strcmp`, an index
outside an array) end the run with a `Fault`.  Loops are structural recursions
over a budget; `mainLoop_ne_fuel` shows that no budget ever runs out.
`waitpid` is taken to return.

C strings are lists of characters (the bytes before the terminating NUL).
-/

set_option autoImplicit false

namespace SimpleShell

/-! ## Constants and data model -/

abbrev CStr := List Char

def MAX_COMMAND_LENGTH : Nat := 255
def MAX_ARGS : Nat := 64
def MAX_JOBS : Nat := 100

/-- The `Job` struct: `pid_t pid; char command[MAX_COMMAND_LENGTH + 1]`. -/
structure Job where
  pid : Int
  command : CStr
deriving DecidableEq, Repr

/-- Calls into the operating system made by the shell, in program order. -/
inductive Sys where
  | chdir (path : CStr)
  | getcwd
  | putenv (s : CStr)
  | unsetenv (name : CStr)
  | fork
  | execvp (file : CStr) (argv : List CStr)
  | waitpid (pid : Int)
  | kill (pid : Int) (sig : Nat)
deriving DecidableEq, Repr

def SIGCONT : Nat := 18

/-- The process state: the globals `jobs[MAX_JOBS]` and `num_jobs`, the text
written so far to the two output streams, and the system calls made so far. -/
structure Shell where
  jobs : List Job
  num_jobs : Int
  stdout : CStr
  stderr : CStr
  sys : List Sys
deriving DecidableEq, Repr

/-- Undefined behaviour reached by the C code, or an exhausted loop budget of the model. -/
inductive Fault where
  | nullDeref
  | outOfBounds
  | fuel
deriving DecidableEq, Repr

/-- What the operating system answers during one prompt cycle. -/
structure OS where
  chdirOk : Bool
  cwd : Option CStr
  putenvOk : Bool
  unsetenvOk : Bool
  strdupOk : Bool
  forkPid : Int
  execOk : Bool
  killOk : Bool
  strerror : CStr

/-- How a handler (and hence one prompt cycle) ends. -/
inductive Outcome where
  | next (s : Shell)
  | exited (s : Shell) (status : Int)
  | replaced (s : Shell)
  | fault (f : Fault)
deriving DecidableEq, Repr

/-- The array `char *args[MAX_ARGS]`: each cell is NULL (`none`) or points to a token. -/
abbrev Args := List (Option CStr)

/-! ## Output helpers -/

def printf (s : CStr) (st : Shell) : Shell := { st with stdout := st.stdout ++ s }

def eprintf (s : CStr) (st : Shell) : Shell := { st with stderr := st.stderr ++ s }

/-- The libc `perror(tag)`: writes `tag: <error text>\n` to the error stream. -/
def perror (os : OS) (tag : CStr) (st : Shell) : Shell :=
  eprintf (tag ++ ": ".toList ++ os.strerror ++ "\n".toList) st

def call (c : Sys) (st : Shell) : Shell := { st with sys := st.sys ++ [c] }

/-- Decimal text of a C `int`, as `%d` prints it. -/
def fmtInt (n : Int) : CStr :=
  match n with
  | Int.ofNat m => (Nat.repr m).toList
  | Int.negSucc m => '-' :: (Nat.repr (m + 1)).toList

/-! ## Array access -/

/-- Read `a[i]`; an index outside the array is a fault. -/
def rd {α : Type} (a : List α) (i : Nat) : Except Fault α :=
  match a[i]? with
  | some x => .ok x
  | none => .error .outOfBounds

/-- Write `a[i] = x`; an index outside the array is a fault. -/
def wr {α : Type} (a : List α) (i : Nat) (x : α) : Except Fault (List α) :=
  if i < a.length then .ok (a.set i x) else .error .outOfBounds

/-! ## libc: `strtok` and `atoi` -/

/-- The bytes of a buffer that form its C string: everything before the first NUL. -/
def cstr (buf : CStr) : CStr := buf.takeWhile (fun c => c != Char.ofNat 0)

/-- The delimiter string `" \n"` handed to `strtok`. -/
def delims : CStr := [' ', '\n']

def isDelim (c : Char) : Bool := delims.contains c

/-- One call of `strtok`: skip leading delimiters; at the end of the string
the answer is NULL; otherwise the token runs up to the next delimiter, which
is overwritten by NUL, and scanning resumes after it. -/
def strtok (s : CStr) : Option (CStr × CStr) :=
  match s.dropWhile isDelim with
  | [] => none
  | c :: cs =>
    some ((c :: cs).takeWhile (fun x => !isDelim x),
          ((c :: cs).dropWhile (fun x => !isDelim x)).drop 1)

/-- The libc `isspace` in the C locale. -/
def isspace (c : Char) : Bool :=
  c == ' ' || c == '\t' || c == '\n' || c == Char.ofNat 11 || c == Char.ofNat 12 || c == '\r'

def isdigit (c : Char) : Bool := 48 ≤ c.toNat && c.toNat ≤ 57

/-- Value of the leading run of decimal digits, continuing from `acc`. -/
def digitsVal : CStr → Nat → Nat
  | [], acc => acc
  | c :: cs, acc => if isdigit c then digitsVal cs (acc * 10 + (c.toNat - 48)) else acc

/-- Saturation to the range of `long` (64 bit), as `strtol` does. -/
def clampLong (z : Int) : Int :=
  if z < -(2 ^ 63) then -(2 ^ 63) else if z > 2 ^ 63 - 1 then 2 ^ 63 - 1 else z

/-- Conversion of a `long` to a 32-bit `int`. -/
def toInt32 (z : Int) : Int := (z + 2 ^ 31) % 2 ^ 32 - 2 ^ 31

/-- The libc `atoi`, that is `(int) strtol(s, NULL, 10)`: leading white space,
an optional sign, then decimal digits; 0 when there is no digit. -/
def atoi (s : CStr) : Int :=
  match s.dropWhile isspace with
  | '-' :: r => toInt32 (clampLong (-(digitsVal r 0 : Int)))
  | '+' :: r => toInt32 (clampLong (digitsVal r 0))
  | r => toInt32 (clampLong (digitsVal r 0))

/-! ## The tokenizing loop of `main` (lines 75-82) -/

/-- The loop `while (token != NULL && i < MAX_ARGS - 1) { args[i++] = token; token = strtok(NULL, " \n"); }`
followed by `args[i] = NULL`.  `saved` is the rest of the line `strtok` keeps
for its next call.  The result is the final `i` and the array. -/
def tokLoop : Nat → Option CStr → CStr → Nat → Args → Except Fault (Nat × Args)
  | 0, token, _, i, args =>
    if token.isSome && decide (i < MAX_ARGS - 1) then .error .fuel
    else (wr args i none).map (fun a => (i, a))
  | fuel + 1, token, saved, i, args =>
    match token with
    | some t =>
      if i < MAX_ARGS - 1 then
        match wr args i (some t) with
        | .error f => .error f
        | .ok args1 =>
          match strtok saved with
          | some (t1, saved1) => tokLoop fuel (some t1) saved1 (i + 1) args1
          | none => tokLoop fuel none [] (i + 1) args1
      else (wr args i none).map (fun a => (i, a))
    | none => (wr args i none).map (fun a => (i, a))

/-- Lines 76-82: `token = strtok(input, " \n"); i = 0;` then the loop. -/
def tokenize (args0 : Args) (input : CStr) : Except Fault (Nat × Args) :=
  match strtok (cstr input) with
  | some (t, saved) => tokLoop MAX_ARGS (some t) saved 0 args0
  | none => tokLoop MAX_ARGS none [] 0 args0

/-- The argument vector a consumer sees: the cells before the first NULL. -/
def argv : Args → List CStr
  | some t :: rest => t :: argv rest
  | _ => []

/-! ## Built-in commands (lines 126-272) -/

def builtin_cd (os : OS) (args : Args) (st : Shell) : Outcome :=
  match rd args 1 with
  | .error f => .fault f
  | .ok none => .next (eprintf "cd: missing argument\n".toList st)
  | .ok (some path) =>
    let st1 := call (.chdir path) st
    if os.chdirOk then .next st1 else .next (perror os "cd".toList st1)

/-- The loop `for (int i = 1; args[i] != NULL; i++) printf("%s ", args[i]);`
over the cells from index 1 on; running off the array is a fault. -/
def echoLoop : Args → Shell → Except Fault Shell
  | [], _ => .error .outOfBounds
  | none :: _, st => .ok st
  | some w :: rest, st => echoLoop rest (printf (w ++ [' ']) st)

def builtin_echo (args : Args) (st : Shell) : Outcome :=
  match echoLoop (args.drop 1) st with
  | .error f => .fault f
  | .ok st1 => .next (printf ['\n'] st1)

def builtin_pwd (os : OS) (st : Shell) : Outcome :=
  let st1 := call .getcwd st
  match os.cwd with
  | some cwd => .next (printf (cwd ++ ['\n']) st1)
  | none => .next (perror os "pwd".toList st1)

def builtin_export (os : OS) (args : Args) (st : Shell) : Outcome :=
  match rd args 1 with
  | .error f => .fault f
  | .ok none => .next (eprintf "export: missing argument\n".toList st)
  | .ok (some kv) =>
    let st1 := call (.putenv kv) st
    if os.putenvOk then .next st1 else .next (perror os "export".toList st1)

def builtin_unset (os : OS) (args : Args) (st : Shell) : Outcome :=
  match rd args 1 with
  | .error f => .fault f
  | .ok none => .next (eprintf "unset: missing argument\n".toList st)
  | .ok (some name) =>
    let st1 := call (.unsetenv name) st
    if os.unsetenvOk then .next st1 else .next (perror os "unset".toList st1)

def builtin_alias (os : OS) (args : Args) (st : Shell) : Outcome :=
  match rd args 1 with
  | .error f => .fault f
  | .ok none => .next (eprintf "alias: missing arguments\n".toList st)
  | .ok (some a) =>
    if !os.strdupOk then .next (perror os "strdup".toList st)
    else
      let name := a.takeWhile (fun c => c != '=')
      if !a.contains '=' || name.isEmpty then
        .next (eprintf "alias: invalid syntax\n".toList st)
      else
        let value := (a.dropWhile (fun c => c != '=')).drop 1
        .next (printf ("Alias: ".toList ++ name ++ ['='] ++ value ++ ['\n']) st)

def builtin_unalias (args : Args) (st : Shell) : Outcome :=
  match rd args 1 with
  | .error f => .fault f
  | .ok none => .next (eprintf "unalias: missing arguments\n".toList st)
  | .ok (some a) => .next (printf ("Unalias: ".toList ++ a ++ ['\n']) st)

/-- The loop `for (int i = 0; i < num_jobs; i++) printf("%d\t%s\n", jobs[i].pid, jobs[i].command);`
started at `i`. -/
def jobsLoop : Nat → Nat → Shell → Except Fault Shell
  | 0, i, st => if (i : Int) < st.num_jobs then .error .fuel else .ok st
  | fuel + 1, i, st =>
    if (i : Int) < st.num_jobs then
      match rd st.jobs i with
      | .error f => .error f
      | .ok j => jobsLoop fuel (i + 1) (printf (fmtInt j.pid ++ ['\t'] ++ j.command ++ ['\n']) st)
    else .ok st

def builtin_jobs (st : Shell) : Outcome :=
  let st1 := printf "Jobs:\n".toList st
  let st2 := printf "PID\tCommand\n".toList st1
  match jobsLoop (st2.jobs.length + 1) 0 st2 with
  | .error f => .fault f
  | .ok st3 => .next st3

/-- The loop `for (int i = job_id - 1; i < num_jobs - 1; i++) jobs[i] = jobs[i + 1];`
started at `i`, on the array `jobs`. -/
def shiftLoop (num_jobs : Int) : Nat → Nat → List Job → Except Fault (List Job)
  | 0, i, jobs => if (i : Int) < num_jobs - 1 then .error .fuel else .ok jobs
  | fuel + 1, i, jobs =>
    if (i : Int) < num_jobs - 1 then
      match rd jobs (i + 1) with
      | .error f => .error f
      | .ok j =>
        match wr jobs i j with
        | .error f => .error f
        | .ok jobs1 => shiftLoop num_jobs fuel (i + 1) jobs1
    else .ok jobs

def builtin_fg (args : Args) (st : Shell) : Outcome :=
  match rd args 1 with
  | .error f => .fault f
  | .ok none => .next (printf "Usage: fg <job_id>\n".toList st)
  | .ok (some a) =>
    let job_id := atoi a
    if job_id < 1 || job_id > st.num_jobs then
      .next (printf "Invalid job ID.\n".toList st)
    else
      match rd st.jobs (job_id - 1).toNat with
      | .error f => .fault f
      | .ok j0 =>
        let pid := j0.pid
        let st1 := call (.waitpid pid) st
        match shiftLoop st1.num_jobs (st1.jobs.length + 1) (job_id - 1).toNat st1.jobs with
        | .error f => .fault f
        | .ok jobs1 =>
          let st2 := { st1 with jobs := jobs1, num_jobs := st1.num_jobs - 1 }
          match rd st2.jobs (job_id - 1).toNat with
          | .error f => .fault f
          | .ok j1 =>
            .next (printf ("Foreground job ".toList ++ fmtInt pid ++ " (".toList ++ j1.command
                            ++ ") terminated.\n".toList) st2)

def builtin_bg (os : OS) (args : Args) (st : Shell) : Outcome :=
  match rd args 1 with
  | .error f => .fault f
  | .ok none => .next (printf "Usage: bg <job_id>\n".toList st)
  | .ok (some a) =>
    let job_id := atoi a
    if job_id < 1 || job_id > st.num_jobs then
      .next (printf "Invalid job ID.\n".toList st)
    else
      match rd st.jobs (job_id - 1).toNat with
      | .error f => .fault f
      | .ok j =>
        let pid := j.pid
        let st1 := printf ("Background job ".toList ++ fmtInt pid ++ " (".toList ++ j.command
                            ++ ").\n".toList) st
        let st2 := call (.kill pid SIGCONT) st1
        if os.killOk then .next st2 else .next (perror os "kill".toList st2)

def builtin_exit (st : Shell) : Outcome :=
  .exited (printf "Exiting shell...\n".toList st) 0

/-! ## External commands (lines 102-116) -/

def execute_command (os : OS) (args : Args) (st : Shell) : Outcome :=
  let st1 := call .fork st
  if os.forkPid = -1 then .next (perror os "fork".toList st1)
  else if os.forkPid = 0 then
    match rd args 0 with
    | .error f => .fault f
    | .ok none => .fault .nullDeref
    | .ok (some file) =>
      let st2 := call (.execvp file (argv args)) st1
      if os.execOk then .replaced st2
      else .exited (perror os "execvp".toList st2) 1
  else .next (call (.waitpid os.forkPid) st1)

/-! ## The registry and the dispatch of `main` (lines 44-57, 84-96) -/

/-- The functions the registry can point to. -/
inductive Builtin where
  | builtin_cd | builtin_echo | builtin_pwd | builtin_export | builtin_unset
  | builtin_alias | builtin_unalias | builtin_jobs | builtin_fg | builtin_bg | builtin_exit
deriving DecidableEq, Repr

/-- The call `builtins[j].function(args)`. -/
def Builtin.run (f : Builtin) (os : OS) (args : Args) (st : Shell) : Outcome :=
  match f with
  | .builtin_cd => SimpleShell.builtin_cd os args st
  | .builtin_echo => SimpleShell.builtin_echo args st
  | .builtin_pwd => SimpleShell.builtin_pwd os st
  | .builtin_export => SimpleShell.builtin_export os args st
  | .builtin_unset => SimpleShell.builtin_unset os args st
  | .builtin_alias => SimpleShell.builtin_alias os args st
  | .builtin_unalias => SimpleShell.builtin_unalias args st
  | .builtin_jobs => SimpleShell.builtin_jobs st
  | .builtin_fg => SimpleShell.builtin_fg args st
  | .builtin_bg => SimpleShell.builtin_bg os args st
  | .builtin_exit => SimpleShell.builtin_exit st

/-- The array `builtins[]` up to its `{NULL, NULL}` terminator. -/
def builtins : List (CStr × Builtin) :=
  [ ("cd".toList, .builtin_cd),
    ("echo".toList, .builtin_echo),
    ("pwd".toList, .builtin_pwd),
    ("export".toList, .builtin_export),
    ("unset".toList, .builtin_unset),
    ("alias".toList, .builtin_alias),
    ("unalias".toList, .builtin_unalias),
    ("jobs".toList, .builtin_jobs),
    ("fg".toList, .builtin_fg),
    ("bg".toList, .builtin_bg),
    ("exit".toList, .builtin_exit) ]

/-- The libc `strcmp(a, b) == 0` on the cell `a`; a NULL `a` is a fault. -/
def strcmpEq (a : Option CStr) (b : CStr) : Except Fault Bool :=
  match a with
  | none => .error .nullDeref
  | some s => .ok (s == b)

/-- Lines 85-96: scan the registry from entry `j` on; the first entry whose
name equals `args[0]` is called and ends the scan; when the scan reaches the
terminator nothing was found and `execute_command(args)` is called. -/
def dispatchFrom (os : OS) (args : Args) (st : Shell) : List (CStr × Builtin) → Outcome
  | [] => execute_command os args st
  | (name, f) :: rest =>
    match rd args 0 with
    | .error e => .fault e
    | .ok a0 =>
      match strcmpEq a0 name with
      | .error e => .fault e
      | .ok true => f.run os args st
      | .ok false => dispatchFrom os args st rest

def dispatch (os : OS) (args : Args) (st : Shell) : Outcome :=
  dispatchFrom os args st builtins

/-! ## The prompt loop of `main` (lines 67-97) -/

/-- One pass through the body of `while (1)` after `fgets` has filled the
buffer with `input`: tokenize, then dispatch.  Also returns the array `args`. -/
def promptCycle (os : OS) (args0 : Args) (st : Shell) (input : CStr) : Args × Outcome :=
  match tokenize args0 input with
  | .error f => (args0, .fault f)
  | .ok (_, args) => (args, dispatch os args st)

/-- The process at start: zeroed globals, nothing written yet. -/
def initShell : Shell :=
  { jobs := List.replicate MAX_JOBS ⟨0, []⟩, num_jobs := 0, stdout := [], stderr := [], sys := [] }

/-- The loop `while (1)`: each element of `inputs` is what one `fgets` call
puts into the buffer, with the answers of the system during that cycle; after
the last element `fgets` returns NULL and `main` returns 0. -/
def mainLoop : List (OS × CStr) → Args → Shell → Outcome
  | [], _, st => .exited (printf "$ ".toList st) 0
  | (os, input) :: rest, args0, st =>
    match promptCycle os args0 (printf "$ ".toList st) input with
    | (args, .next st1) => mainLoop rest args st1
    | (_, o) => o

/-- The states in which the prompt is printed while `mainLoop` runs. -/
def promptStates : List (OS × CStr) → Args → Shell → List Shell
  | [], _, st => [st]
  | (os, input) :: rest, args0, st =>
    match promptCycle os args0 (printf "$ ".toList st) input with
    | (args, .next st1) => st :: promptStates rest args st1
    | (_, _) => [st]

/-- The live part of the job table: the first `num_jobs` cells of `jobs`. -/
def table (st : Shell) : List Job := st.jobs.take st.num_jobs.toNat

/-! ## Reference notions used to state the properties -/

/-- The maximal runs of characters of `s` that do not satisfy `p`, in order of
occurrence: split at every `p`-character and drop the empty pieces. -/
def fields (p : Char → Bool) (s : CStr) : List CStr :=
  (s.splitOnP p).filter (fun t => !t.isEmpty)

/-- The tokens still to come in the loop: the current one and those of the saved rest. -/
def pending (token : Option CStr) (saved : CStr) : List CStr :=
  match token with
  | none => []
  | some t => t :: fields isDelim saved

/-- The array `args` with the tokens `ts` in the cells from `i` on, followed by NULL. -/
def stored (args : Args) (i : Nat) (ts : List CStr) : Args :=
  args.take i ++ ts.map some ++ none :: args.drop (i + ts.length + 1)

/-- The text `builtin_jobs` prints for one record. -/
def jobLine (j : Job) : CStr := fmtInt j.pid ++ ['\t'] ++ j.command ++ ['\n']

/-- The process state an outcome carries, if any. -/
def Outcome.state? : Outcome → Option Shell
  | .next s => some s
  | .exited s _ => some s
  | .replaced s => some s
  | .fault _ => none

/-- No record was added: the count did not grow, and an empty table stayed as it was. -/
def Keeps (st s1 : Shell) : Prop :=
  s1.num_jobs ≤ st.num_jobs ∧ (st.num_jobs ≤ 0 → s1.jobs = st.jobs ∧ s1.num_jobs = st.num_jobs)

/-- The system calls made between the two states, none of which is `fork`. -/
def NoFork (st s1 : Shell) : Prop :=
  ∃ extra, s1.sys = st.sys ++ extra ∧ Sys.fork ∉ extra

/-- Both frame conditions at once. -/
def Frame (st s1 : Shell) : Prop := Keeps st s1 ∧ NoFork st s1

/-- The tokens as the specification words them: the maximal runs of
non-whitespace characters of the line. -/
def wsTokens (input : CStr) : List CStr := fields isspace (cstr input)

/-! ## Concrete values used in the examples -/

/-- An array of `MAX_ARGS` NULL cells. -/
def nullArgs : Args := List.replicate MAX_ARGS none

/-- A system in which every call succeeds and `fork` answers `pid` in the parent. -/
def okOS (pid : Int) : OS :=
  { chdirOk := true, cwd := some ['/'], putenvOk := true, unsetenvOk := true, strdupOk := true,
    forkPid := pid, execOk := true, killOk := true, strerror := [] }

/-- A job table holding two records, in a full-size array. -/
def demoShell : Shell :=
  { jobs := ⟨10, "sleep".toList⟩ :: ⟨20, "make".toList⟩ :: List.replicate 98 ⟨0, []⟩,
    num_jobs := 2, stdout := [], stderr := [], sys := [] }

/-- A job table holding one record, in a full-size array. -/
def oneJob : Shell :=
  { jobs := ⟨7, "vi".toList⟩ :: List.replicate 99 ⟨0, []⟩,
    num_jobs := 1, stdout := [], stderr := [], sys := [] }

/-- Two prompt cycles: an external command, then `fg 1`. -/
def demoInputs : List (OS × CStr) :=
  [(okOS 1, "ls\n".toList), (okOS 1, "fg 1\n".toList)]

/-- The state after the two cycles of `demoInputs`. -/
def demoFinal : Shell :=
  { initShell with stdout := "$ $ Invalid job ID.\n".toList, sys := [Sys.fork, Sys.waitpid 1] }

/-- The state `fg 1` leaves when run in `demoShell`. -/
def demoAfterFg : Shell :=
  { jobs := ⟨20, "make".toList⟩ :: ⟨20, "make".toList⟩ :: List.replicate 98 ⟨0, []⟩,
    num_jobs := 1, stdout := "Foreground job 10 (make) terminated.\n".toList,
    stderr := [], sys := [Sys.waitpid 10] }

/-! ## Lemmas -/

theorem fields_nil (p : Char → Bool) : fields p [] = [] := by
  simp [fields]

theorem fields_dropWhile (p : Char → Bool) (s : CStr) :
    fields p (s.dropWhile p) = fields p s := by
  induction s with
  | nil => rfl
  | cons c cs ih =>
    by_cases h : p c = true
    · rw [List.dropWhile_cons_of_pos h, ih]
      simp [fields, h]
    · rw [List.dropWhile_cons_of_neg h]

theorem fields_run (p : Char → Bool) (c : Char) (cs : CStr) (h : p c = false) :
    fields p (c :: cs) =
      (c :: cs).takeWhile (fun x => !p x) ::
        fields p (((c :: cs).dropWhile (fun x => !p x)).drop 1) := by
  have hsplit := List.takeWhile_append_dropWhile (fun x => !p x) (c :: cs)
  have hne : (c :: cs).takeWhile (fun x => !p x) ≠ [] := by
    simp [List.takeWhile_cons, h]
  have hno : ∀ x ∈ (c :: cs).takeWhile (fun x => !p x), ¬ p x = true := by
    intro x hx
    have := List.mem_takeWhile_imp hx
    simpa using this
  generalize htk : (c :: cs).takeWhile (fun x => !p x) = tk at *
  generalize hrest : (c :: cs).dropWhile (fun x => !p x) = rest at *
  cases rest with
  | nil =>
    have hs : c :: cs = tk := by simpa using hsplit.symm
    rw [hs]
    simp only [fields, List.drop_nil, List.splitOnP_nil]
    rw [List.splitOnP_eq_single p tk hno]
    cases tk with
    | nil => exact absurd rfl hne
    | cons a as => simp
  | cons d r =>
    have hd : p d = true := by
      have := List.head_dropWhile_not (fun x => !p x) (c :: cs)
      simp only [hrest] at this
      simpa using this (by simp)
    rw [← hsplit]
    simp only [fields, List.drop_succ_cons, List.drop_zero]
    rw [List.splitOnP_first p tk hno d hd r]
    cases tk with
    | nil => exact absurd rfl hne
    | cons a as => simp

/-- One `strtok` call peels the first field off the string. -/
theorem fields_strtok (s : CStr) :
    fields isDelim s =
      match strtok s with
      | none => []
      | some (t, r) => t :: fields isDelim r := by
  rw [← fields_dropWhile]
  unfold strtok
  cases hs : s.dropWhile isDelim with
  | nil => simp [fields_nil]
  | cons c cs =>
    have hc : isDelim c = false := by
      have := List.head_dropWhile_not isDelim s
      simp only [hs] at this
      simpa using this (by simp)
    simp only
    exact fields_run isDelim c cs hc

theorem splitOnP_no_sep (p : Char → Bool) (s : CStr) :
    ∀ t ∈ s.splitOnP p, ∀ c ∈ t, p c = false := by
  induction s with
  | nil => simp
  | cons x xs ih =>
    rw [List.splitOnP_cons]
    by_cases hx : p x = true
    · rw [if_pos hx]
      intro t ht
      rcases List.mem_cons.mp ht with h | h
      · subst h; simp
      · exact ih t h
    · rw [if_neg hx]
      cases hsp : xs.splitOnP p with
      | nil => simp [List.modifyHead]
      | cons hd tl =>
        rw [hsp] at ih
        intro t ht
        simp only [List.modifyHead, List.mem_cons] at ht
        rcases ht with h | h
        · subst h
          intro c hc
          rcases List.mem_cons.mp hc with h1 | h1
          · subst h1; simpa using hx
          · exact ih hd (List.mem_cons_self _ _) c h1
        · exact ih t (List.mem_cons_of_mem _ h)

theorem fields_mem (p : Char → Bool) (s : CStr) :
    ∀ t ∈ fields p s, t ≠ [] ∧ ∀ c ∈ t, p c = false := by
  intro t ht
  simp only [fields, List.mem_filter] at ht
  refine ⟨?_, splitOnP_no_sep p s t ht.1⟩
  intro h
  rw [h] at ht
  simp at ht

theorem wr_ok {α : Type} (a : List α) (i : Nat) (x : α) (h : i < a.length) :
    wr a i x = .ok (a.set i x) := by
  simp [wr, h]

theorem stored_nil (args : Args) (i : Nat) (h : i < args.length) :
    stored args i [] = args.set i none := by
  simp [stored, List.set_eq_take_append_cons_drop, h]

theorem stored_cons (args : Args) (i : Nat) (t : CStr) (ts : List CStr) (h : i < args.length) :
    stored args i (t :: ts) = stored (args.set i (some t)) (i + 1) ts := by
  unfold stored
  have h1 : (args.set i (some t)).take (i + 1) = args.take i ++ [some t] := by
    rw [List.set_eq_take_append_cons_drop, if_pos h]
    rw [List.take_append_eq_append_take]
    simp [List.length_take, Nat.min_eq_left (Nat.le_of_lt h), List.take_take]
  have h2 : (args.set i (some t)).drop (i + 1 + ts.length + 1) =
      args.drop (i + (t :: ts).length + 1) := by
    rw [List.drop_set_of_lt _ _ (by omega)]
    congr 1
    simp only [List.length_cons]
    omega
  rw [h1, h2]
  simp

/-- With a budget that covers the remaining cells, the loop stores the pending
tokens, at most up to cell `MAX_ARGS - 2`, and then the sentinel. -/
theorem tokLoop_spec (fuel : Nat) :
    ∀ (token : Option CStr) (saved : CStr) (i : Nat) (args : Args),
    args.length = MAX_ARGS → i ≤ MAX_ARGS - 1 → MAX_ARGS - 1 - i < fuel →
    tokLoop fuel token saved i args =
      .ok (i + ((pending token saved).take (MAX_ARGS - 1 - i)).length,
           stored args i ((pending token saved).take (MAX_ARGS - 1 - i))) := by
  induction fuel with
  | zero => intro _ _ _ _ _ _ h; omega
  | succ fuel ih =>
    intro token saved i args hlen hi hfuel
    have hiLen : i < args.length := by rw [hlen]; unfold MAX_ARGS at *; omega
    cases token with
    | none =>
      simp only [tokLoop, pending, List.take_nil, List.length_nil, Nat.add_zero]
      rw [wr_ok _ _ _ hiLen, stored_nil _ _ hiLen]
      rfl
    | some t =>
      by_cases hlt : i < MAX_ARGS - 1
      · have hk : MAX_ARGS - 1 - i = (MAX_ARGS - 1 - (i + 1)) + 1 := by omega
        have hlen1 : (args.set i (some t)).length = MAX_ARGS := by simpa using hlen
        have hstep : tokLoop (fuel + 1) (some t) saved i args =
            tokLoop fuel (match strtok saved with | some (t1, _) => some t1 | none => none)
              (match strtok saved with | some (_, s1) => s1 | none => []) (i + 1)
              (args.set i (some t)) := by
          simp only [tokLoop, if_pos hlt, wr_ok _ _ _ hiLen]
          cases strtok saved with
          | none => rfl
          | some p => rfl
        have hpend : pending (match strtok saved with | some (t1, _) => some t1 | none => none)
              (match strtok saved with | some (_, s1) => s1 | none => []) =
            fields isDelim saved := by
          rw [fields_strtok saved]
          cases strtok saved with
          | none => rfl
          | some p => rfl
        rw [hstep, ih _ _ _ _ hlen1 (by omega) (by omega), hpend]
        simp only [pending]
        rw [hk, List.take_succ_cons, stored_cons _ _ _ _ hiLen]
        simp only [List.length_cons]
        congr 2
        omega
      · have hi63 : MAX_ARGS - 1 - i = 0 := by omega
        simp only [tokLoop, if_neg hlt, hi63, List.take_zero, List.length_nil, Nat.add_zero]
        rw [wr_ok _ _ _ hiLen, stored_nil _ _ hiLen]
        rfl

/-- The tokenizer never faults on a `MAX_ARGS`-cell array: it stores the first
`MAX_ARGS - 1` fields of the line and the sentinel after them. -/
theorem tokenize_spec (args0 : Args) (input : CStr) (hlen : args0.length = MAX_ARGS) :
    tokenize args0 input =
      .ok (((fields isDelim (cstr input)).take (MAX_ARGS - 1)).length,
           stored args0 0 ((fields isDelim (cstr input)).take (MAX_ARGS - 1))) := by
  have hp : (match strtok (cstr input) with
      | some (t, saved) => pending (some t) saved
      | none => pending none []) = fields isDelim (cstr input) := by
    rw [fields_strtok (cstr input)]
    cases strtok (cstr input) with
    | none => rfl
    | some p => rfl
  unfold tokenize
  cases h : strtok (cstr input) with
  | none =>
    rw [h] at hp
    simp only at hp ⊢
    rw [tokLoop_spec _ _ _ _ _ hlen (by unfold MAX_ARGS; omega) (by unfold MAX_ARGS; omega), hp]
    simp
  | some p =>
    obtain ⟨t, saved⟩ := p
    rw [h] at hp
    simp only at hp ⊢
    rw [tokLoop_spec _ _ _ _ _ hlen (by unfold MAX_ARGS; omega) (by unfold MAX_ARGS; omega), hp]
    simp

theorem argv_map_some (ts : List CStr) (rest : Args) :
    argv (ts.map some ++ none :: rest) = ts := by
  induction ts with
  | nil => rfl
  | cons t ts ih => simp [argv, ih]

theorem argv_stored (args : Args) (ts : List CStr) : argv (stored args 0 ts) = ts := by
  simp [stored, argv_map_some]

theorem stored_length (args : Args) (ts : List CStr) (h : ts.length < args.length) :
    (stored args 0 ts).length = args.length := by
  simp only [stored, List.take_zero, List.nil_append, List.length_append, List.length_map,
    List.length_cons, List.length_drop]
  omega

theorem stored_get_lt (args : Args) (ts : List CStr) (j : Nat) (h : j < ts.length) :
    (stored args 0 ts)[j]? = (ts[j]?).map some := by
  simp only [stored, List.take_zero, List.nil_append]
  rw [List.getElem?_append_left (by simpa using h)]
  simp

theorem stored_get_sentinel (args : Args) (ts : List CStr) :
    (stored args 0 ts)[ts.length]? = some none := by
  simp only [stored, List.take_zero, List.nil_append]
  rw [List.getElem?_append_right (by simp)]
  simp

theorem stored_get_gt (args : Args) (ts : List CStr) (j : Nat) (h : ts.length < j) :
    (stored args 0 ts)[j]? = args[j]? := by
  simp only [stored, List.take_zero, List.nil_append]
  rw [List.getElem?_append_right (by simp; omega)]
  simp only [List.length_map]
  obtain ⟨k, hk⟩ : ∃ k, j - ts.length = k + 1 := ⟨j - ts.length - 1, by omega⟩
  rw [hk, List.getElem?_cons_succ, List.getElem?_drop]
  congr 1
  omega

theorem rd_ok {α : Type} (a : List α) (i : Nat) (h : i < a.length) :
    rd a i = .ok a[i] := by
  simp [rd, List.getElem?_eq_getElem h]

theorem rd_get? {α : Type} (a : List α) (i : Nat) (x : α) (h : a[i]? = some x) :
    rd a i = .ok x := by
  simp [rd, h]

/-- The compaction loop: cells `i .. n-2` receive their right neighbour, all others stay. -/
theorem shiftLoop_spec (n : Nat) (fuel : Nat) : ∀ (i : Nat) (jobs : List Job),
    n ≤ jobs.length → i < n → n - 1 - i ≤ fuel →
    ∃ jobs1, shiftLoop (n : Int) fuel i jobs = .ok jobs1 ∧ jobs1.length = jobs.length ∧
      ∀ p, jobs1[p]? = if i ≤ p ∧ p + 1 < n then jobs[p + 1]? else jobs[p]? := by
  induction fuel with
  | zero =>
    intro i jobs _ hi hfuel
    refine ⟨jobs, ?_, rfl, ?_⟩
    · have : ¬ ((i : Int) < (n : Int) - 1) := by omega
      simp [shiftLoop, this]
    · intro p
      have : ¬ (i ≤ p ∧ p + 1 < n) := by omega
      simp [this]
  | succ fuel ih =>
    intro i jobs hlen hi hfuel
    by_cases hc : (i : Int) < (n : Int) - 1
    · have hi1 : i + 1 < jobs.length := by omega
      have hi0 : i < jobs.length := by omega
      obtain ⟨jobs1, hrun, hl, hget⟩ :=
        ih (i + 1) (jobs.set i (jobs[i + 1])) (by simpa using hlen) (by omega) (by omega)
      refine ⟨jobs1, ?_, by simpa using hl, ?_⟩
      · simp only [shiftLoop, if_pos hc, rd_ok _ _ hi1, wr_ok _ _ _ hi0]
        exact hrun
      · intro p
        rw [hget p]
        simp only [List.getElem?_set]
        by_cases hp : i = p
        · subst hp
          have h1 : ¬ (i + 1 ≤ i ∧ i + 1 < n) := by omega
          have h2 : (i ≤ i ∧ i + 1 < n) := by omega
          simp [h1, h2, hi0, List.getElem?_eq_getElem hi1]
        · by_cases hq : i + 1 ≤ p ∧ p + 1 < n
          · have h2 : (i ≤ p ∧ p + 1 < n) := by omega
            have h3 : ¬ i = p + 1 := by omega
            simp [hq, h2, h3]
          · have h2 : ¬ (i ≤ p ∧ p + 1 < n) := by omega
            simp [hq, h2, hp]
    · refine ⟨jobs, ?_, rfl, ?_⟩
      · simp [shiftLoop, hc]
      · intro p
        have : ¬ (i ≤ p ∧ p + 1 < n) := by omega
        simp [this]

/-- What `builtin_fg` does on a valid slot, in terms of the array after compaction. -/
theorem builtin_fg_valid (args : Args) (st : Shell) (a : CStr)
    (hlen : st.num_jobs ≤ st.jobs.length)
    (harg : args[1]? = some (some a)) (h1 : 1 ≤ atoi a) (h2 : atoi a ≤ st.num_jobs) :
    ∃ (j0 j1 : Job) (jobs1 : List Job),
      st.jobs[(atoi a - 1).toNat]? = some j0 ∧ jobs1[(atoi a - 1).toNat]? = some j1 ∧
      jobs1.length = st.jobs.length ∧
      (∀ p, jobs1[p]? = if (atoi a - 1).toNat ≤ p ∧ p + 1 < st.num_jobs.toNat
                          then st.jobs[p + 1]? else st.jobs[p]?) ∧
      builtin_fg args st = .next
        { jobs := jobs1, num_jobs := st.num_jobs - 1,
          stdout := st.stdout ++ ("Foreground job ".toList ++ fmtInt j0.pid ++ " (".toList ++
            j1.command ++ ") terminated.\n".toList),
          stderr := st.stderr, sys := st.sys ++ [Sys.waitpid j0.pid] } := by
  obtain ⟨n, hn⟩ : ∃ n : Nat, st.num_jobs = (n : Int) := ⟨st.num_jobs.toNat, by omega⟩
  obtain ⟨i, hi⟩ : ∃ i : Nat, atoi a - 1 = (i : Int) := ⟨(atoi a - 1).toNat, by omega⟩
  have hin : i < n := by omega
  have hnl : n ≤ st.jobs.length := by omega
  have hil : i < st.jobs.length := by omega
  obtain ⟨jobs1, hrun, hl, hget⟩ :=
    shiftLoop_spec n (st.jobs.length + 1) i st.jobs hnl hin (by omega)
  have hil1 : i < jobs1.length := by omega
  refine ⟨st.jobs[i], jobs1[i], jobs1, ?_, ?_, hl, ?_, ?_⟩
  · simp [hi, List.getElem?_eq_getElem hil]
  · simp [hi, List.getElem?_eq_getElem hil1]
  · intro p
    rw [hget p, hi, hn]
    simp
  · have hcond : ¬ (atoi a < 1 ∨ atoi a > st.num_jobs) := by omega
    simp only [builtin_fg, rd_get? _ _ _ harg, Bool.or_eq_true, decide_eq_true_eq, hcond,
      if_false, hi, Int.toNat_ofNat, rd_ok _ _ hil, call, hn, hrun, rd_ok _ _ hil1, printf]
    rw [hn] at hcond
    rw [if_neg hcond]

theorem jobsLoop_spec (fuel : Nat) : ∀ (i : Nat) (st : Shell),
    st.num_jobs ≤ st.jobs.length → st.num_jobs.toNat - i ≤ fuel →
    jobsLoop fuel i st =
      .ok (printf (((table st).drop i).map jobLine).flatten st) := by
  induction fuel with
  | zero =>
    intro i st hlen hfuel
    have hc : ¬ ((i : Int) < st.num_jobs) := by omega
    have hd : (table st).drop i = [] := by
      apply List.drop_eq_nil_of_le
      simp only [table, List.length_take]
      omega
    simp [jobsLoop, hc, hd, printf]
  | succ fuel ih =>
    intro i st hlen hfuel
    by_cases hc : (i : Int) < st.num_jobs
    · have hi : i < st.jobs.length := by omega
      have hit : i < (table st).length := by
        simp only [table, List.length_take]
        omega
      have hd : (table st).drop i = st.jobs[i] :: (table st).drop (i + 1) := by
        rw [List.drop_eq_getElem_cons hit]
        simp [table]
      simp only [jobsLoop, if_pos hc, rd_ok _ _ hi]
      rw [ih (i + 1) _ (by simpa [printf] using hlen) (by simp only [printf]; omega)]
      rw [hd]
      simp [printf, table, jobLine]
    · have hd : (table st).drop i = [] := by
        apply List.drop_eq_nil_of_le
        simp only [table, List.length_take]
        omega
      simp [jobsLoop, hc, hd, printf]

theorem builtin_jobs_spec (st : Shell) (hlen : st.num_jobs ≤ st.jobs.length) :
    builtin_jobs st = .next { st with stdout :=
      st.stdout ++ "Jobs:\n".toList ++ "PID\tCommand\n".toList ++ ((table st).map jobLine).flatten } := by
  unfold builtin_jobs
  simp only
  rw [jobsLoop_spec _ 0 _ (by simpa [printf] using hlen) (by simp only [printf]; omega)]
  simp [printf, table]

theorem echoLoop_spec (ws : List CStr) (rest : Args) : ∀ st : Shell,
    echoLoop (ws.map some ++ none :: rest) st =
      .ok (printf (ws.map (fun w => w ++ [' '])).flatten st) := by
  induction ws with
  | nil => intro st; simp [echoLoop, printf]
  | cons w ws ih =>
    intro st
    show echoLoop (ws.map some ++ none :: rest) (printf (w ++ [' ']) st) = _
    rw [ih]
    simp [printf]

theorem builtin_echo_spec (a0 : Option CStr) (ws : List CStr) (rest : Args) (st : Shell) :
    builtin_echo (a0 :: (ws.map some ++ none :: rest)) st =
      .next { st with stdout := st.stdout ++ (ws.map (fun w => w ++ [' '])).flatten ++ ['\n'] } := by
  simp [builtin_echo, echoLoop_spec, printf]

theorem keeps_refl (st : Shell) : Keeps st st := ⟨le_refl _, fun _ => ⟨rfl, rfl⟩⟩

theorem keeps_of_eq (st s1 : Shell) (hj : s1.jobs = st.jobs) (hn : s1.num_jobs = st.num_jobs) :
    Keeps st s1 := ⟨le_of_eq hn, fun _ => ⟨hj, hn⟩⟩

theorem jobsLoop_frame (fuel : Nat) : ∀ (i : Nat) (st s1 : Shell),
    jobsLoop fuel i st = .ok s1 →
    s1.jobs = st.jobs ∧ s1.num_jobs = st.num_jobs ∧ s1.sys = st.sys ∧ s1.stderr = st.stderr := by
  induction fuel with
  | zero =>
    intro i st s1 h
    simp only [jobsLoop] at h
    split at h
    · cases h
    · cases h; exact ⟨rfl, rfl, rfl, rfl⟩
  | succ fuel ih =>
    intro i st s1 h
    simp only [jobsLoop] at h
    split at h
    · split at h
      · cases h
      · have := ih _ _ _ h
        simpa [printf] using this
    · cases h; exact ⟨rfl, rfl, rfl, rfl⟩

theorem frame_refl (st : Shell) : Frame st st :=
  ⟨keeps_refl st, [], by simp, by simp⟩

theorem frame_printf (st s1 : Shell) (x : CStr) (h : Frame st s1) :
    Frame st (SimpleShell.printf x s1) := h

theorem frame_eprintf (st s1 : Shell) (x : CStr) (h : Frame st s1) :
    Frame st (SimpleShell.eprintf x s1) := h

theorem frame_perror (st s1 : Shell) (os : OS) (x : CStr) (h : Frame st s1) :
    Frame st (SimpleShell.perror os x s1) := h

theorem frame_call (st s1 : Shell) (c : Sys) (hc : c ≠ Sys.fork) (h : Frame st s1) :
    Frame st (SimpleShell.call c s1) := by
  obtain ⟨hk, extra, he, hf⟩ := h
  refine ⟨hk, extra ++ [c], ?_, ?_⟩
  · simp [SimpleShell.call, he]
  · simp only [List.mem_append, List.mem_singleton, not_or]
    exact ⟨hf, fun e => hc e.symm⟩

theorem builtin_fg_frame (args : Args) (st s1 : Shell)
    (h : (builtin_fg args st).state? = some s1) : Frame st s1 := by
  simp only [builtin_fg] at h
  split at h
  · cases h
  · cases h; exact frame_printf _ _ _ (frame_refl _)
  · split at h
    · cases h; exact frame_printf _ _ _ (frame_refl _)
    · rename_i a _ hcond
      have hcond1 : 1 ≤ atoi a ∧ atoi a ≤ st.num_jobs := by
        simp only [Bool.or_eq_true, decide_eq_true_eq] at hcond
        omega
      split at h
      · cases h
      · split at h
        · cases h
        · split at h
          · cases h
          · cases h
            refine ⟨⟨?_, ?_⟩, [_], rfl, by simp⟩
            · simp only [printf, call]; omega
            · intro h0; omega

theorem builtin_bg_frame (os : OS) (args : Args) (st s1 : Shell)
    (h : (builtin_bg os args st).state? = some s1) : Frame st s1 := by
  simp only [builtin_bg] at h
  split at h
  · cases h
  · cases h; exact frame_printf _ _ _ (frame_refl _)
  · split at h
    · cases h; exact frame_printf _ _ _ (frame_refl _)
    · split at h
      · cases h
      · split at h <;> cases h
        · exact frame_call _ _ _ (by simp) (frame_printf _ _ _ (frame_refl _))
        · exact frame_perror _ _ _ _ (frame_call _ _ _ (by simp) (frame_printf _ _ _ (frame_refl _)))

theorem builtin_jobs_frame (st s1 : Shell)
    (h : (builtin_jobs st).state? = some s1) : Frame st s1 := by
  simp only [builtin_jobs] at h
  split at h
  · cases h
  · rename_i s3 hrun
    cases h
    obtain ⟨hj, hn, hs, -⟩ := jobsLoop_frame _ _ _ _ hrun
    exact ⟨keeps_of_eq _ _ hj hn, [], by simpa [printf] using hs, by simp⟩

theorem echoLoop_frame : ∀ (cells : Args) (st s1 : Shell),
    echoLoop cells st = .ok s1 →
    s1.jobs = st.jobs ∧ s1.num_jobs = st.num_jobs ∧ s1.sys = st.sys ∧ s1.stderr = st.stderr := by
  intro cells
  induction cells with
  | nil => intro st s1 h; cases h
  | cons c cs ih =>
    intro st s1 h
    cases c with
    | none => cases h; exact ⟨rfl, rfl, rfl, rfl⟩
    | some w =>
      have := ih _ _ h
      simpa [printf] using this

theorem builtin_echo_frame (args : Args) (st s1 : Shell)
    (h : (builtin_echo args st).state? = some s1) : Frame st s1 := by
  simp only [builtin_echo] at h
  split at h
  · cases h
  · rename_i s3 hrun
    cases h
    obtain ⟨hj, hn, hs, -⟩ := echoLoop_frame _ _ _ hrun
    exact ⟨keeps_of_eq _ _ hj hn, [], by simpa [printf] using hs, by simp⟩

theorem builtin_frame (f : Builtin) (os : OS) (args : Args) (st s1 : Shell)
    (h : (f.run os args st).state? = some s1) : Frame st s1 := by
  cases f
  case builtin_fg => exact builtin_fg_frame args st s1 h
  case builtin_bg => exact builtin_bg_frame os args st s1 h
  case builtin_jobs => exact builtin_jobs_frame st s1 h
  case builtin_echo => exact builtin_echo_frame args st s1 h
  case builtin_cd =>
    simp only [Builtin.run, builtin_cd] at h
    split at h
    · cases h
    · cases h; exact frame_eprintf _ _ _ (frame_refl _)
    · split at h <;> cases h
      · exact frame_call _ _ _ (by simp) (frame_refl _)
      · exact frame_perror _ _ _ _ (frame_call _ _ _ (by simp) (frame_refl _))
  case builtin_pwd =>
    simp only [Builtin.run, builtin_pwd] at h
    split at h <;> cases h
    · exact frame_printf _ _ _ (frame_call _ _ _ (by simp) (frame_refl _))
    · exact frame_perror _ _ _ _ (frame_call _ _ _ (by simp) (frame_refl _))
  case builtin_export =>
    simp only [Builtin.run, builtin_export] at h
    split at h
    · cases h
    · cases h; exact frame_eprintf _ _ _ (frame_refl _)
    · split at h <;> cases h
      · exact frame_call _ _ _ (by simp) (frame_refl _)
      · exact frame_perror _ _ _ _ (frame_call _ _ _ (by simp) (frame_refl _))
  case builtin_unset =>
    simp only [Builtin.run, builtin_unset] at h
    split at h
    · cases h
    · cases h; exact frame_eprintf _ _ _ (frame_refl _)
    · split at h <;> cases h
      · exact frame_call _ _ _ (by simp) (frame_refl _)
      · exact frame_perror _ _ _ _ (frame_call _ _ _ (by simp) (frame_refl _))
  case builtin_alias =>
    simp only [Builtin.run, builtin_alias] at h
    split at h
    · cases h
    · cases h; exact frame_eprintf _ _ _ (frame_refl _)
    · split at h
      · cases h; exact frame_perror _ _ _ _ (frame_refl _)
      · split at h <;> cases h
        · exact frame_eprintf _ _ _ (frame_refl _)
        · exact frame_printf _ _ _ (frame_refl _)
  case builtin_unalias =>
    simp only [Builtin.run, builtin_unalias] at h
    split at h
    · cases h
    · cases h; exact frame_eprintf _ _ _ (frame_refl _)
    · cases h; exact frame_printf _ _ _ (frame_refl _)
  case builtin_exit =>
    simp only [Builtin.run, builtin_exit] at h
    cases h
    exact frame_printf _ _ _ (frame_refl _)

theorem execute_command_keeps (os : OS) (args : Args) (st s1 : Shell)
    (h : (execute_command os args st).state? = some s1) :
    s1.jobs = st.jobs ∧ s1.num_jobs = st.num_jobs := by
  simp only [execute_command] at h
  split at h
  · cases h; exact ⟨rfl, rfl⟩
  · split at h
    · split at h
      · cases h
      · cases h
      · split at h <;> cases h <;> exact ⟨rfl, rfl⟩
    · cases h; exact ⟨rfl, rfl⟩

theorem dispatchFrom_keeps (os : OS) (args : Args) (st s1 : Shell) :
    ∀ reg : List (CStr × Builtin),
    (dispatchFrom os args st reg).state? = some s1 → Keeps st s1 := by
  intro reg
  induction reg with
  | nil =>
    intro h
    obtain ⟨hj, hn⟩ := execute_command_keeps os args st s1 h
    exact keeps_of_eq _ _ hj hn
  | cons e rest ih =>
    intro h
    obtain ⟨name, f⟩ := e
    simp only [dispatchFrom] at h
    split at h
    · cases h
    · split at h
      · cases h
      · exact (builtin_frame f os args st s1 h).1
      · exact ih h

theorem dispatchFrom_first (os : OS) (args : Args) (st : Shell) (a0 : CStr)
    (h0 : args[0]? = some (some a0)) (f : Builtin) (post : List (CStr × Builtin)) :
    ∀ pre : List (CStr × Builtin), (∀ e ∈ pre, e.1 ≠ a0) →
    dispatchFrom os args st (pre ++ (a0, f) :: post) = f.run os args st := by
  intro pre
  induction pre with
  | nil =>
    intro _
    simp [dispatchFrom, rd_get? _ _ _ h0, strcmpEq]
  | cons e pre ih =>
    intro hpre
    obtain ⟨name, g⟩ := e
    have hne : a0 ≠ name := fun h => hpre (name, g) (List.mem_cons_self _ _) h.symm
    have hrest := ih (fun e he => hpre e (List.mem_cons_of_mem _ he))
    simp only [List.cons_append, dispatchFrom, rd_get? _ _ _ h0, strcmpEq]
    have hb : (a0 == name) = false := by simpa using hne
    rw [hb]
    exact hrest

theorem dispatchFrom_none (os : OS) (args : Args) (st : Shell) (a0 : CStr)
    (h0 : args[0]? = some (some a0)) :
    ∀ reg : List (CStr × Builtin), (∀ e ∈ reg, e.1 ≠ a0) →
    dispatchFrom os args st reg = execute_command os args st := by
  intro reg
  induction reg with
  | nil => intro _; rfl
  | cons e reg ih =>
    intro hreg
    obtain ⟨name, g⟩ := e
    have hne : a0 ≠ name := fun h => hreg (name, g) (List.mem_cons_self _ _) h.symm
    have hb : (a0 == name) = false := by simpa using hne
    simp only [dispatchFrom, rd_get? _ _ _ h0, strcmpEq, hb]
    exact ih (fun e he => hreg e (List.mem_cons_of_mem _ he))

theorem promptCycle_keeps (os : OS) (a : Args) (st : Shell) (input : CStr) (s1 : Shell)
    (h : (promptCycle os a st input).2.state? = some s1) : Keeps st s1 := by
  simp only [promptCycle] at h
  split at h
  · cases h
  · exact dispatchFrom_keeps os _ st s1 builtins h

theorem promptStates_empty : ∀ (inputs : List (OS × CStr)) (a : Args) (st : Shell),
    st.num_jobs = 0 →
    ∀ s ∈ promptStates inputs a st, s.num_jobs = 0 ∧ s.jobs = st.jobs := by
  intro inputs
  induction inputs with
  | nil =>
    intro a st h0 s hs
    simp only [promptStates, List.mem_singleton] at hs
    subst hs
    exact ⟨h0, rfl⟩
  | cons x rest ih =>
    intro a st h0 s hs
    obtain ⟨os, input⟩ := x
    simp only [promptStates] at hs
    split at hs
    · rename_i a1 st1 heq
      rcases List.mem_cons.mp hs with h | h
      · subst h; exact ⟨h0, rfl⟩
      · have hk : Keeps (printf "$ ".toList st) st1 := by
          apply promptCycle_keeps os a _ input
          rw [heq]
          rfl
        obtain ⟨hj, hn⟩ := hk.2 (by simp [printf, h0])
        have h1 : st1.num_jobs = 0 := by rw [hn]; simpa [printf] using h0
        obtain ⟨r1, r2⟩ := ih a1 st1 h1 s h
        exact ⟨r1, by rw [r2, hj]; rfl⟩
    · simp only [List.mem_singleton] at hs
      subst hs
      exact ⟨h0, rfl⟩

/-! ## The loop budgets of the model are never exhausted -/

theorem rd_ne_fuel {α : Type} (a : List α) (i : Nat) : rd a i ≠ .error .fuel := by
  unfold rd
  split <;> simp

theorem wr_ne_fuel {α : Type} (a : List α) (i : Nat) (x : α) : wr a i x ≠ .error .fuel := by
  unfold wr
  split <;> simp

theorem wr_length {α : Type} (a b : List α) (i : Nat) (x : α) (h : wr a i x = .ok b) :
    b.length = a.length := by
  unfold wr at h
  split at h
  · cases h; simp
  · cases h

theorem rd_lt {α : Type} (a : List α) (i : Nat) (x : α) (h : rd a i = .ok x) : i < a.length := by
  unfold rd at h
  split at h
  · rename_i y hy
    exact (List.getElem?_eq_some.mp hy).1
  · cases h

theorem tokLoop_ne_fuel (fuel : Nat) :
    ∀ (token : Option CStr) (saved : CStr) (i : Nat) (args : Args),
    MAX_ARGS ≤ fuel + i → tokLoop fuel token saved i args ≠ .error .fuel := by
  induction fuel with
  | zero =>
    intro token saved i args h
    have hi : ¬ i < MAX_ARGS - 1 := by unfold MAX_ARGS at *; omega
    simp only [tokLoop, hi, decide_False, Bool.and_false, Bool.false_eq_true, if_false]
    intro hc
    cases hw : wr args i none with
    | error f =>
      rw [hw] at hc
      simp only [Except.map] at hc
      cases hc
      exact wr_ne_fuel _ _ _ hw
    | ok a => rw [hw] at hc; cases hc
  | succ fuel ih =>
    intro token saved i args h
    have hmap : (wr args i none).map (fun a => (i, a)) ≠ .error .fuel := by
      intro hc
      cases hw : wr args i none with
      | error f =>
        rw [hw] at hc
        simp only [Except.map] at hc
        cases hc
        exact wr_ne_fuel _ _ _ hw
      | ok a => rw [hw] at hc; cases hc
    cases token with
    | none => simpa only [tokLoop] using hmap
    | some t =>
      simp only [tokLoop]
      split
      · split
        · rename_i f hw
          intro hc
          cases hc
          exact wr_ne_fuel _ _ _ hw
        · split
          · exact ih _ _ _ _ (by omega)
          · exact ih _ _ _ _ (by omega)
      · exact hmap

theorem jobsLoop_ne_fuel (fuel : Nat) : ∀ (i : Nat) (st : Shell),
    st.jobs.length + 1 ≤ fuel + i → i ≤ st.jobs.length →
    jobsLoop fuel i st ≠ .error .fuel := by
  induction fuel with
  | zero => intro i st h1 h2; omega
  | succ fuel ih =>
    intro i st h1 h2
    simp only [jobsLoop]
    split
    · split
      · rename_i f hr
        intro hc
        cases hc
        exact rd_ne_fuel _ _ hr
      · rename_i j hr
        have := rd_lt _ _ _ hr
        exact ih _ _ (by simp only [printf]; omega) (by simp only [printf]; omega)
    · simp

theorem shiftLoop_ne_fuel (n : Int) (fuel : Nat) : ∀ (i : Nat) (jobs : List Job),
    jobs.length + 1 ≤ fuel + i → i ≤ jobs.length →
    shiftLoop n fuel i jobs ≠ .error .fuel := by
  induction fuel with
  | zero => intro i jobs h1 h2; omega
  | succ fuel ih =>
    intro i jobs h1 h2
    simp only [shiftLoop]
    split
    · split
      · rename_i f hr
        intro hc
        cases hc
        exact rd_ne_fuel _ _ hr
      · rename_i j hr
        have hlt := rd_lt _ _ _ hr
        split
        · rename_i f hw
          intro hc
          cases hc
          exact wr_ne_fuel _ _ _ hw
        · rename_i jobs1 hw
          have hl := wr_length _ _ _ _ hw
          exact ih _ _ (by omega) (by omega)
    · simp

theorem builtin_run_ne_fuel (f : Builtin) (os : OS) (args : Args) (st : Shell) :
    f.run os args st ≠ .fault .fuel := by
  have hrd : ∀ {α : Type} (a : List α) (i : Nat) (e : Fault), rd a i = .error e →
      Outcome.fault e ≠ .fault .fuel := by
    intro α a i e he hc
    cases hc
    exact rd_ne_fuel _ _ he
  cases f
  case builtin_cd =>
    simp only [Builtin.run, builtin_cd]
    split
    · rename_i e he; exact hrd _ _ _ he
    · simp
    · split <;> simp
  case builtin_echo =>
    simp only [Builtin.run, builtin_echo]
    split
    · rename_i e he
      intro hc
      cases hc
      have : ∀ (cells : Args) (s : Shell), echoLoop cells s ≠ .error .fuel := by
        intro cells
        induction cells with
        | nil => intro s; simp [echoLoop]
        | cons c cs ih =>
          intro s
          cases c with
          | none => simp [echoLoop]
          | some w => simpa [echoLoop] using ih _
      exact this _ _ he
    · simp
  case builtin_pwd =>
    simp only [Builtin.run, builtin_pwd]
    split <;> simp
  case builtin_export =>
    simp only [Builtin.run, builtin_export]
    split
    · rename_i e he; exact hrd _ _ _ he
    · simp
    · split <;> simp
  case builtin_unset =>
    simp only [Builtin.run, builtin_unset]
    split
    · rename_i e he; exact hrd _ _ _ he
    · simp
    · split <;> simp
  case builtin_alias =>
    simp only [Builtin.run, builtin_alias]
    split
    · rename_i e he; exact hrd _ _ _ he
    · simp
    · split
      · simp
      · split <;> simp
  case builtin_unalias =>
    simp only [Builtin.run, builtin_unalias]
    split
    · rename_i e he; exact hrd _ _ _ he
    · simp
    · simp
  case builtin_jobs =>
    simp only [Builtin.run, builtin_jobs]
    split
    · rename_i e he
      intro hc
      cases hc
      exact jobsLoop_ne_fuel _ _ _ (by simp [printf]) (by simp) he
    · simp
  case builtin_fg =>
    simp only [Builtin.run, builtin_fg]
    split
    · rename_i e he; exact hrd _ _ _ he
    · simp
    · split
      · simp
      · split
        · rename_i e he; exact hrd _ _ _ he
        · rename_i j0 hj0
          have hlt := rd_lt _ _ _ hj0
          split
          · rename_i e he
            intro hc
            cases hc
            exact shiftLoop_ne_fuel _ _ _ _ (by simp only [call]; omega)
              (by simp only [call]; omega) he
          · split
            · rename_i e he; exact hrd _ _ _ he
            · simp
  case builtin_bg =>
    simp only [Builtin.run, builtin_bg]
    split
    · rename_i e he; exact hrd _ _ _ he
    · simp
    · split
      · simp
      · split
        · rename_i e he; exact hrd _ _ _ he
        · split <;> simp
  case builtin_exit =>
    simp [Builtin.run, builtin_exit]

theorem execute_command_ne_fuel (os : OS) (args : Args) (st : Shell) :
    execute_command os args st ≠ .fault .fuel := by
  simp only [execute_command]
  split
  · simp
  · split
    · split
      · rename_i e he
        intro hc
        cases hc
        exact rd_ne_fuel _ _ he
      · simp
      · split <;> simp
    · simp

theorem dispatchFrom_ne_fuel (os : OS) (args : Args) (st : Shell) :
    ∀ reg : List (CStr × Builtin), dispatchFrom os args st reg ≠ .fault .fuel := by
  intro reg
  induction reg with
  | nil => exact execute_command_ne_fuel os args st
  | cons e rest ih =>
    obtain ⟨name, f⟩ := e
    simp only [dispatchFrom]
    split
    · rename_i e he
      intro hc
      cases hc
      exact rd_ne_fuel _ _ he
    · split
      · rename_i e he
        intro hc
        cases hc
        unfold strcmpEq at he
        split at he <;> cases he
      · exact builtin_run_ne_fuel f os args st
      · exact ih

/-- The loop budgets of the model are never the reason a prompt cycle stops. -/
theorem promptCycle_ne_fuel (os : OS) (args0 : Args) (st : Shell) (input : CStr) :
    (promptCycle os args0 st input).2 ≠ .fault .fuel := by
  simp only [promptCycle]
  split
  · rename_i e he
    intro hc
    cases hc
    unfold tokenize at he
    split at he
    · exact tokLoop_ne_fuel _ _ _ _ _ (by omega) he
    · exact tokLoop_ne_fuel _ _ _ _ _ (by omega) he
  · exact dispatchFrom_ne_fuel os _ st builtins

theorem mainLoop_ne_fuel : ∀ (inputs : List (OS × CStr)) (args0 : Args) (st : Shell),
    mainLoop inputs args0 st ≠ .fault .fuel := by
  intro inputs
  induction inputs with
  | nil => intro _ _; simp [mainLoop]
  | cons x rest ih =>
    intro args0 st
    obtain ⟨os, input⟩ := x
    simp only [mainLoop]
    split
    · exact ih _ _
    · rename_i a o hne heq
      have := promptCycle_ne_fuel os args0 (printf "$ ".toList st) input
      rw [heq] at this
      exact this

/-! ## The properties -/

/-- C1: in an array of `MAX_JOBS` cells holding `count` records, `0 ≤ count ≤ 100`,
`fg` with an argument that `atoi` reads as a slot `s`, `1 ≤ s ≤ count`, returns
normally; afterwards the count is `count - 1`, the table is one shorter, every
record before slot `s` (0-based position `p < s - 1`) is where it was, every
record behind slot `s` (0-based position `p > s - 1`) is one position lower, and
the table is the old one with position `s - 1` erased. -/
theorem builtin_fg_erases (args : Args) (st : Shell) (a : CStr) (s : Int)
    (hjobs : st.jobs.length = MAX_JOBS) (h0 : 0 ≤ st.num_jobs) (h100 : st.num_jobs ≤ MAX_JOBS)
    (harg : args[1]? = some (some a)) (hs : atoi a = s) (h1 : 1 ≤ s) (h2 : s ≤ st.num_jobs) :
    ∃ st1, builtin_fg args st = .next st1 ∧
      st1.num_jobs = st.num_jobs - 1 ∧
      (table st1).length = (table st).length - 1 ∧
      (∀ p, p < (s - 1).toNat → (table st1)[p]? = (table st)[p]?) ∧
      (∀ p, (s - 1).toNat < p → p < (table st).length → (table st1)[p - 1]? = (table st)[p]?) ∧
      table st1 = (table st).eraseIdx (s - 1).toNat := by
  subst hs
  have hlen : st.num_jobs ≤ st.jobs.length := by rw [hjobs]; exact h100
  obtain ⟨j0, j1, jobs1, -, -, hl, hget, hrun⟩ := builtin_fg_valid args st a hlen harg h1 h2
  have hshift : ∀ (n i : Nat), i < n →
      (∀ p : Nat, jobs1[p]? = if i ≤ p ∧ p + 1 < n then st.jobs[p + 1]? else st.jobs[p]?) →
      jobs1.take (n - 1) = (st.jobs.take n).eraseIdx i := by
    intro n i hin hg
    apply List.ext_getElem?
    intro p
    simp only [List.getElem?_take, List.getElem?_eraseIdx, hg p]
    split_ifs <;> first | rfl | omega
  have heq : jobs1.take (st.num_jobs - 1).toNat =
      (st.jobs.take st.num_jobs.toNat).eraseIdx (atoi a - 1).toNat := by
    have := hshift st.num_jobs.toNat (atoi a - 1).toNat (by omega) hget
    have e : (st.num_jobs - 1).toNat = st.num_jobs.toNat - 1 := by omega
    rw [e]
    exact this
  have htl : (table st).length = st.num_jobs.toNat := by
    simp only [table, List.length_take]
    omega
  refine ⟨_, hrun, rfl, ?_, ?_, ?_, heq⟩
  · simp only [table, List.length_take, hl]
    omega
  · intro p hp
    show (jobs1.take (st.num_jobs - 1).toNat)[p]? = _
    rw [heq, List.getElem?_eraseIdx_of_lt _ _ _ hp]
    rfl
  · intro p hp hpl
    show (jobs1.take (st.num_jobs - 1).toNat)[p - 1]? = _
    rw [heq, List.getElem?_eraseIdx_of_ge _ _ _ (by omega)]
    have : p - 1 + 1 = p := by omega
    rw [this]
    rfl

/-- C1 at `fg 1` on a table of two records. -/
theorem builtin_fg_erases_witness :
    ∃ st1, builtin_fg [some "fg".toList, some "1".toList, none] demoShell = .next st1 ∧
      st1.num_jobs = demoShell.num_jobs - 1 ∧
      (table st1).length = (table demoShell).length - 1 ∧
      (∀ p, p < ((1 : Int) - 1).toNat → (table st1)[p]? = (table demoShell)[p]?) ∧
      (∀ p, ((1 : Int) - 1).toNat < p → p < (table demoShell).length →
        (table st1)[p - 1]? = (table demoShell)[p]?) ∧
      table st1 = (table demoShell).eraseIdx ((1 : Int) - 1).toNat :=
  builtin_fg_erases [some "fg".toList, some "1".toList, none] demoShell "1".toList 1
    (by decide) (by decide) (by decide) (by decide) (by decide) (by decide) (by decide)

/-- C2: `fg 1` on the table `[(10, sleep), (20, make)]` removes the job with
process id 10 and command `sleep`, yet the message it prints names the command
`make` of the record that was at slot 2: line 245 reads `jobs[job_id - 1].command`
after the compaction. -/
theorem builtin_fg_reports_next_command :
    builtin_fg [some "fg".toList, some "1".toList, none] demoShell = .next demoAfterFg ∧
    demoAfterFg.stdout = "Foreground job 10 (make) terminated.\n".toList ∧
    (table demoShell)[0]? = some ⟨10, "sleep".toList⟩ ∧
    (table demoShell)[1]? = some ⟨20, "make".toList⟩ := by
  decide

/-- C3: when the argument of `fg` or `bg` is read by `atoi` as `s` with `s < 1` or
`s > num_jobs`, both builtins return with the state unchanged except that
`Invalid job ID.` and a newline were appended to the output: the array `jobs`
and `num_jobs` are as before and no system call (no `waitpid`, no `kill`) was made. -/
theorem fg_bg_invalid (os : OS) (args : Args) (st : Shell) (a : CStr) (s : Int)
    (harg : args[1]? = some (some a)) (hs : atoi a = s) (hbad : s < 1 ∨ s > st.num_jobs) :
    builtin_fg args st = .next { st with stdout := st.stdout ++ "Invalid job ID.\n".toList } ∧
    builtin_bg os args st = .next { st with stdout := st.stdout ++ "Invalid job ID.\n".toList } := by
  subst hs
  constructor
  · simp only [builtin_fg, rd_get? _ _ _ harg, Bool.or_eq_true, decide_eq_true_eq, hbad,
      if_true, printf]
  · simp only [builtin_bg, rd_get? _ _ _ harg, Bool.or_eq_true, decide_eq_true_eq, hbad,
      if_true, printf]

/-- C3 at `fg 1` with an empty table, also through the prompt cycle. -/
theorem fg_bg_invalid_witness :
    (promptCycle (okOS 1) nullArgs initShell "fg 1\n".toList).2 =
        .next { initShell with stdout := "Invalid job ID.\n".toList } ∧
    builtin_fg [some "fg".toList, some "1".toList, none] initShell =
        .next { initShell with stdout := initShell.stdout ++ "Invalid job ID.\n".toList } ∧
    builtin_bg (okOS 1) [some "fg".toList, some "1".toList, none] initShell =
        .next { initShell with stdout := initShell.stdout ++ "Invalid job ID.\n".toList } :=
  ⟨by decide, fg_bg_invalid (okOS 1) [some "fg".toList, some "1".toList, none] initShell
    "1".toList 1 (by decide) (by decide) (by decide)⟩

/-- C4: on an array of `MAX_ARGS = 64` cells the tokenizing loop ends without any
write outside the array; it stores `i ≤ MAX_ARGS - 1 = 63` tokens in the cells
`0 .. i-1`, writes NULL into cell `i`, and leaves the cells behind `i` untouched. -/
theorem tokenize_bounded (args0 : Args) (input : CStr) (hlen : args0.length = MAX_ARGS) :
    ∃ (i : Nat) (args : Args), tokenize args0 input = .ok (i, args) ∧
      i ≤ MAX_ARGS - 1 ∧ MAX_ARGS - 1 = 63 ∧
      args.length = MAX_ARGS ∧ MAX_ARGS = 64 ∧
      (argv args).length = i ∧
      (∀ j : Nat, j < i → ∃ t, args[j]? = some (some t)) ∧
      args[i]? = some none ∧
      (∀ j : Nat, i < j → args[j]? = args0[j]?) := by
  have hts : ((fields isDelim (cstr input)).take (MAX_ARGS - 1)).length ≤ MAX_ARGS - 1 := by
    simp only [List.length_take]
    omega
  refine ⟨_, _, tokenize_spec args0 input hlen, hts, rfl, ?_, rfl, ?_, ?_, ?_, ?_⟩
  · rw [stored_length _ _ (by rw [hlen]; unfold MAX_ARGS at *; omega), hlen]
  · rw [argv_stored]
  · intro j hj
    rw [stored_get_lt _ _ _ hj, List.getElem?_eq_getElem hj]
    exact ⟨_, rfl⟩
  · exact stored_get_sentinel _ _
  · intro j hj
    exact stored_get_gt _ _ _ hj

/-- C4 at the line `echo hello world`. -/
theorem tokenize_bounded_witness :
    ∃ (i : Nat) (args : Args), tokenize nullArgs "echo hello world\n".toList = .ok (i, args) ∧
      i ≤ MAX_ARGS - 1 ∧ MAX_ARGS - 1 = 63 ∧
      args.length = MAX_ARGS ∧ MAX_ARGS = 64 ∧
      (argv args).length = i ∧
      (∀ j : Nat, j < i → ∃ t, args[j]? = some (some t)) ∧
      args[i]? = some none ∧
      (∀ j : Nat, i < j → args[j]? = nullArgs[j]?) :=
  tokenize_bounded nullArgs "echo hello world\n".toList (by decide)

/-- C5 as stated fails: on the line `a<TAB>b` the tokenizer yields the single
token `a<TAB>b`, which contains a whitespace character and is not the list of
whitespace-delimited tokens `a`, `b`. -/
theorem tokenize_tab_not_split :
    ¬ (∃ (i : Nat) (args : Args), tokenize nullArgs "a\tb\n".toList = .ok (i, args) ∧
        argv args = (wsTokens "a\tb\n".toList).take (MAX_ARGS - 1) ∧
        ∀ t ∈ argv args, t ≠ [] ∧ ∀ c ∈ t, isspace c = false) := by
  rintro ⟨i, args, hrun, -, hws⟩
  have hv : (tokenize nullArgs "a\tb\n".toList).map (fun r => argv r.2) =
      .ok ["a\tb".toList] := by rfl
  rw [hrun] at hv
  have hargv : argv args = ["a\tb".toList] := by
    simpa [Except.map] using hv
  have := (hws "a\tb".toList (by rw [hargv]; exact List.mem_singleton.mpr rfl)).2 '\t' (by decide)
  exact absurd this (by decide)

/-- C5 amended: the tokens are the maximal runs of characters other than space and
newline of the C string in the buffer, in order, cut to the first
`MAX_ARGS - 1 = 63`; none is empty and none contains a space or a newline. -/
theorem tokenize_fields (args0 : Args) (input : CStr) (hlen : args0.length = MAX_ARGS) :
    ∃ (i : Nat) (args : Args), tokenize args0 input = .ok (i, args) ∧
      argv args = (fields isDelim (cstr input)).take (MAX_ARGS - 1) ∧
      MAX_ARGS - 1 = 63 ∧
      (∀ c : Char, isDelim c = true ↔ (c = ' ' ∨ c = '\n')) ∧
      ∀ t ∈ argv args, t ≠ [] ∧ ∀ c ∈ t, c ≠ ' ' ∧ c ≠ '\n' := by
  have hd : ∀ c : Char, isDelim c = true ↔ (c = ' ' ∨ c = '\n') := by
    intro c
    simp [isDelim, delims]
  refine ⟨_, _, tokenize_spec args0 input hlen, argv_stored _ _, rfl, hd, ?_⟩
  intro t ht
  rw [argv_stored] at ht
  obtain ⟨hne, hno⟩ := fields_mem isDelim (cstr input) t (List.mem_of_mem_take ht)
  refine ⟨hne, fun c hc => ?_⟩
  have hf := hno c hc
  constructor
  · intro h
    have := (hd c).mpr (Or.inl h)
    rw [hf] at this
    exact absurd this (by decide)
  · intro h
    have := (hd c).mpr (Or.inr h)
    rw [hf] at this
    exact absurd this (by decide)

/-- C5 amended, at a line with a tab and a double space. -/
theorem tokenize_fields_witness :
    ∃ (i : Nat) (args : Args), tokenize nullArgs "a\tb  c\n".toList = .ok (i, args) ∧
      argv args = (fields isDelim (cstr "a\tb  c\n".toList)).take (MAX_ARGS - 1) ∧
      MAX_ARGS - 1 = 63 ∧
      (∀ c : Char, isDelim c = true ↔ (c = ' ' ∨ c = '\n')) ∧
      ∀ t ∈ argv args, t ≠ [] ∧ ∀ c ∈ t, c ≠ ' ' ∧ c ≠ '\n' :=
  tokenize_fields nullArgs "a\tb  c\n".toList (by decide)

/-- C6: on a line without tokens (a bare newline, or blanks and a newline) the
tokenizer stores no token and NULL in `args[0]`; the dispatch loop then hands
that NULL to `strcmp` at line 87, so the cycle ends in a fault instead of
returning to the prompt. -/
theorem blank_line_null_deref :
    (promptCycle (okOS 1) nullArgs initShell "\n".toList).2 = .fault .nullDeref ∧
    (promptCycle (okOS 1) nullArgs initShell "  \n".toList).2 = .fault .nullDeref ∧
    (tokenize nullArgs "\n".toList).map (fun r => (r.1, argv r.2)) = .ok (0, []) := by
  refine ⟨by decide, by decide, by rfl⟩

/-- C7 as stated fails: for a table with the single record `(7, vi)` the text
printed by `jobs` is the two header lines and `7<TAB>vi`; the slot number 1
occurs nowhere in it. -/
theorem builtin_jobs_no_slot_number :
    ∃ s1, builtin_jobs oneJob = .next s1 ∧
      s1.stdout = "Jobs:\nPID\tCommand\n7\tvi\n".toList ∧
      ¬ (fmtInt 1 <:+: s1.stdout) := by
  refine ⟨_, rfl, by decide, by decide⟩

/-- C7 amended: when `num_jobs` does not exceed the array size, `jobs` prints the
lines `Jobs:` and `PID<TAB>Command` and then, for every record of the table in
table order, one line `<pid><TAB><command>`; nothing else in the state changes,
so the table and the count are as before. -/
theorem builtin_jobs_lists_table (st : Shell) (hlen : st.num_jobs ≤ st.jobs.length) :
    builtin_jobs st = .next { st with stdout :=
      st.stdout ++ "Jobs:\n".toList ++ "PID\tCommand\n".toList ++
        ((table st).map (fun j => fmtInt j.pid ++ ['\t'] ++ j.command ++ ['\n'])).flatten } :=
  builtin_jobs_spec st hlen

/-- C7 amended, at a table of two records. -/
theorem builtin_jobs_lists_table_witness :
    builtin_jobs demoShell = .next { demoShell with stdout :=
      demoShell.stdout ++ "Jobs:\n".toList ++ "PID\tCommand\n".toList ++
        ((table demoShell).map (fun j => fmtInt j.pid ++ ['\t'] ++ j.command ++ ['\n'])).flatten } :=
  builtin_jobs_lists_table demoShell (by decide)

/-- C8: with a token in `args[0]`, the dispatch of `main` runs exactly one handler
on the unchanged array and state.  If the registry has an entry named `args[0]`
with no such entry before it, the outcome is that of this entry's function, and
no `fork` (hence no `execute_command`) happened.  If no entry has that name, the
outcome is that of `execute_command(args)`, which forks exactly once.  The names
are compared as whole strings; the registry holds, in this order, cd, echo, pwd,
export, unset, alias, unalias, jobs, fg, bg, exit, all different. -/
theorem dispatch_first_match (os : OS) (args : Args) (st : Shell) (a0 : CStr)
    (h0 : args[0]? = some (some a0)) :
    (∀ (pre post : List (CStr × Builtin)) (f : Builtin),
        builtins = pre ++ (a0, f) :: post → (∀ e ∈ pre, e.1 ≠ a0) →
        dispatch os args st = f.run os args st ∧
        ∀ s1, (dispatch os args st).state? = some s1 → NoFork st s1) ∧
    ((∀ e ∈ builtins, e.1 ≠ a0) →
        dispatch os args st = execute_command os args st ∧
        ∃ s1 more, (dispatch os args st).state? = some s1 ∧
          s1.sys = st.sys ++ Sys.fork :: more ∧ Sys.fork ∉ more) ∧
    builtins.map Prod.fst =
      ["cd".toList, "echo".toList, "pwd".toList, "export".toList, "unset".toList,
       "alias".toList, "unalias".toList, "jobs".toList, "fg".toList, "bg".toList,
       "exit".toList] ∧
    (builtins.map Prod.fst).Nodup := by
  refine ⟨?_, ?_, by decide, by decide⟩
  · intro pre post f hreg hpre
    have hd : dispatch os args st = f.run os args st := by
      unfold dispatch
      rw [hreg]
      exact dispatchFrom_first os args st a0 h0 f post pre hpre
    refine ⟨hd, ?_⟩
    intro s1 hs1
    rw [hd] at hs1
    exact (builtin_frame f os args st s1 hs1).2
  · intro hreg
    have hd : dispatch os args st = execute_command os args st :=
      dispatchFrom_none os args st a0 h0 builtins hreg
    refine ⟨hd, ?_⟩
    rw [hd]
    simp only [execute_command, rd_get? _ _ _ h0]
    split
    · exact ⟨_, [], rfl, by simp [perror, eprintf, call], by simp⟩
    · split
      · split
        · exact ⟨_, [Sys.execvp a0 (argv args)], rfl, by simp [call], by simp⟩
        · exact ⟨_, [Sys.execvp a0 (argv args)], rfl, by simp [perror, eprintf, call], by simp⟩
      · exact ⟨_, [Sys.waitpid os.forkPid], rfl, by simp [call], by simp⟩

/-- C8 at `pwd` (a builtin) and at `PWD` (not one: the comparison is case-sensitive). -/
theorem dispatch_first_match_witness :
    (dispatch (okOS 1) [some "pwd".toList, none] initShell =
        Builtin.builtin_pwd.run (okOS 1) [some "pwd".toList, none] initShell) ∧
    (dispatch (okOS 1) [some "PWD".toList, none] initShell =
        execute_command (okOS 1) [some "PWD".toList, none] initShell) :=
  ⟨((dispatch_first_match (okOS 1) [some "pwd".toList, none] initShell "pwd".toList
      (by decide)).1 (builtins.take 2) (builtins.drop 3) Builtin.builtin_pwd
      (by decide) (by decide)).1,
   ((dispatch_first_match (okOS 1) [some "PWD".toList, none] initShell "PWD".toList
      (by decide)).2.1 (by decide)).1⟩

/-- C9: for the argument vector `echo w1 ... wn`, `builtin_echo`, also when reached
through the dispatch, appends to the output each word followed by one space and
then one newline, and changes nothing else in the state; the line
`echo hello world` prints `hello world ` and a newline, and `echo` alone prints
a newline. -/
theorem builtin_echo_output (os : OS) (ws : List CStr) (rest : Args) (st : Shell) :
    builtin_echo (some "echo".toList :: (ws.map some ++ none :: rest)) st =
      .next { st with stdout := st.stdout ++ (ws.map (fun w => w ++ [' '])).flatten ++ ['\n'] } ∧
    dispatch os (some "echo".toList :: (ws.map some ++ none :: rest)) st =
      .next { st with stdout := st.stdout ++ (ws.map (fun w => w ++ [' '])).flatten ++ ['\n'] } ∧
    (promptCycle os nullArgs initShell "echo hello world\n".toList).2 =
      .next { initShell with stdout := "hello world \n".toList } ∧
    (promptCycle os nullArgs initShell "echo\n".toList).2 =
      .next { initShell with stdout := "\n".toList } := by
  have h1 := builtin_echo_spec (some "echo".toList) ws rest st
  refine ⟨h1, ?_, ?_, ?_⟩
  · rw [← h1]
    exact dispatchFrom_first os _ st "echo".toList (by simp) Builtin.builtin_echo (builtins.drop 2)
      (builtins.take 1) (by decide)
  · rfl
  · rfl

/-- C10: started from the initial state, for every sequence of input lines (and
every behaviour of the system), in every state in which the prompt is printed
`num_jobs` is 0, the table is empty and the array `jobs` is as at start; from any
state, a prompt cycle never increases `num_jobs`; and `execute_command` leaves
`jobs` and `num_jobs` as they were. -/
theorem job_table_stays_empty (inputs : List (OS × CStr)) (args0 : Args) :
    (∀ s ∈ promptStates inputs args0 initShell,
        s.num_jobs = 0 ∧ table s = [] ∧ s.jobs = initShell.jobs) ∧
    (∀ (os : OS) (a : Args) (st : Shell) (input : CStr) (s1 : Shell),
        (promptCycle os a st input).2.state? = some s1 → s1.num_jobs ≤ st.num_jobs) ∧
    (∀ (os : OS) (a : Args) (st s1 : Shell),
        (execute_command os a st).state? = some s1 →
        s1.jobs = st.jobs ∧ s1.num_jobs = st.num_jobs) := by
  refine ⟨?_, ?_, ?_⟩
  · intro s hs
    obtain ⟨hn, hj⟩ := promptStates_empty inputs args0 initShell rfl s hs
    exact ⟨hn, by simp [table, hn], hj⟩
  · intro os a st input s1 h
    exact (promptCycle_keeps os a st input s1 h).1
  · intro os a st s1 h
    exact execute_command_keeps os a st s1 h

/-- C10 at two prompt cycles (`ls`, then `fg 1`), at `fg 1` on a table of two
records, and at an external command. -/
theorem job_table_stays_empty_witness :
    demoFinal ∈ promptStates demoInputs nullArgs initShell ∧
    (demoFinal.num_jobs = 0 ∧ table demoFinal = [] ∧ demoFinal.jobs = initShell.jobs) ∧
    (promptCycle (okOS 1) nullArgs demoShell "fg 1\n".toList).2.state? = some demoAfterFg ∧
    demoAfterFg.num_jobs ≤ demoShell.num_jobs ∧
    (execute_command (okOS 1) [some "ls".toList, none] demoShell).state? =
      some { demoShell with sys := [Sys.fork, Sys.waitpid 1] } ∧
    demoShell.jobs = demoShell.jobs ∧ demoShell.num_jobs = demoShell.num_jobs :=
  ⟨by decide,
   (job_table_stays_empty demoInputs nullArgs).1 demoFinal (by decide),
   by decide,
   (job_table_stays_empty demoInputs nullArgs).2.1 (okOS 1) nullArgs demoShell "fg 1\n".toList
     demoAfterFg (by decide),
   by decide,
   (job_table_stays_empty demoInputs nullArgs).2.2 (okOS 1) [some "ls".toList, none] demoShell
     { demoShell with sys := [Sys.fork, Sys.waitpid 1] } (by decide)⟩

end SimpleShell
